import Mathlib

/-!
Verification of the platform-stock selection engine's specified properties
against a shallow embedding of the repository's code.

Embedded sources:
* the refactor design's Python `FilterManager.run_filters` and
  `MarkLineGenerator.generate_mark_lines` (design document, part_001);
* the front end's `generateMarkLines`, `updateWindowWeights`,
  `parsedWindows`, `fetchPlatformStocks` validation and `startPolling`
  (App script, part_000);
* `findDateIndex` and the mark-line portion of `setOptions`
  (src/components/KlineChart.vue).
-/

namespace StockPlatform

/-! ### Python design: filter results and the filter manager -/

/-- Support/resistance levels dict used by the box filter
(`support_resistance_levels` in the design's `MarkLineGenerator`).
`none` models a key that is absent or bound to Python `None`
(the generator treats the two identically). -/
structure SRLevels where
  support : Option ℚ
  resistance : Option ℚ
deriving DecidableEq

/-- Result dict returned by a filter's `analyze`.  `passed` is looked up with
`dict.get` (so it may be absent), `details` is an optional string-keyed dict
of named values, and `support_resistance_levels` is read by the box branch of
the mark-line generator. -/
structure PyFilterResult where
  passed : Option Bool
  details : Option (List (String × String))
  support_resistance_levels : Option SRLevels
deriving DecidableEq

/-- A registered filter of `FilterManager`: its `enabled` flag and the result
its `analyze` returns on the window under evaluation.  Per the design
(spec section 4.1) `analyze` is a pure function of the window slice and the
filter parameters, so for a fixed run its outcome is a fixed value,
independent of the manager's `short_circuit` flag. -/
structure PyFilter where
  enabled : Bool
  analyze : PyFilterResult
deriving DecidableEq

/-- Mutable state accumulated by `FilterManager.run_filters` during its loop:
the platform verdict accumulator, the per-filter results dict (insertion
ordered) and the judgment log. -/
structure RunState where
  is_platform : Bool
  filter_results : List (String × PyFilterResult)
  judgment_log : List String
deriving DecidableEq

/-- Loop body of `FilterManager.run_filters`: iterate the registered filters
in order; an enabled filter is evaluated, recorded and ANDed into the
accumulator; when the accumulator is false and `short_circuit` is set the
remaining filters are skipped; a disabled filter only contributes its
auto-pass log line. -/
def run_filtersAux (short_circuit : Bool) :
    List (String × PyFilter) → RunState → RunState
  | [], st => st
  | (name, f) :: rest, st =>
    if f.enabled then
      let result := f.analyze
      let passed := result.passed.getD true
      let ip := st.is_platform && passed
      let st2 : RunState :=
        { is_platform := ip
          filter_results := st.filter_results ++ [(name, result)]
          judgment_log := st.judgment_log ++
            [name ++ ": " ++ (if passed then "通过" else "未通过")] }
      if !ip && short_circuit then
        { st2 with judgment_log := st2.judgment_log ++ ["提前结束 (短路优化)"] }
      else
        run_filtersAux short_circuit rest st2
    else
      run_filtersAux short_circuit rest
        { st with judgment_log := st.judgment_log ++
            [name ++ ": 已禁用 (自动通过)"] }

/-- `FilterManager.run_filters` (design document): runs the registered
filters over the fixed window and returns the final verdict, result dict and
judgment log.  `short_circuit` is the `kwargs.get("short_circuit", True)`
flag. -/
def run_filters (filters : List (String × PyFilter)) (short_circuit : Bool) :
    RunState :=
  let st0 : RunState :=
    { is_platform := true, filter_results := [], judgment_log := ["开始过滤分析"] }
  let st := run_filtersAux short_circuit filters st0
  { st with judgment_log := st.judgment_log ++
      ["最终判断: " ++ (if st.is_platform then "是" else "否") ++ " 平台期"] }

/-- AND over the enabled filters' `passed` values (with the dict-get default
`True`), the mathematical value of the verdict accumulator. -/
def andEnabled : List (String × PyFilter) → Bool
  | [] => true
  | (_, f) :: rest =>
    (if f.enabled then f.analyze.passed.getD true else true) && andEnabled rest

theorem run_filtersAux_is_platform (short_circuit : Bool) :
    ∀ (fs : List (String × PyFilter)) (st : RunState),
      (run_filtersAux short_circuit fs st).is_platform =
        (st.is_platform && andEnabled fs) := by
  intro fs
  induction fs with
  | nil => intro st; simp [run_filtersAux, andEnabled]
  | cons hd rest ih =>
    intro st
    obtain ⟨name, f⟩ := hd
    by_cases hf : f.enabled
    · simp only [run_filtersAux, hf, if_true]
      by_cases hsc : (!(st.is_platform && f.analyze.passed.getD true)
          && short_circuit) = true
      · rw [if_pos hsc]
        have hip : (st.is_platform && f.analyze.passed.getD true) = false := by
          cases h : (st.is_platform && f.analyze.passed.getD true) with
          | false => rfl
          | true => rw [h] at hsc; simp at hsc
        simp [andEnabled, hf, ← Bool.and_assoc, hip]
      · rw [if_neg hsc, ih]
        simp [andEnabled, hf, Bool.and_assoc]
    · simp only [run_filtersAux, hf]
      rw [if_neg (by simp), ih]
      simp [andEnabled, hf]

theorem run_filters_is_platform (filters : List (String × PyFilter))
    (short_circuit : Bool) :
    (run_filters filters short_circuit).is_platform = andEnabled filters := by
  simp [run_filters, run_filtersAux_is_platform]

/-- Claim C1: for every registered filter set (hence every input window and
every assignment of per-filter pass/fail outcomes), the aggregate platform
verdict `is_platform` computed by `run_filters` with `short_circuit` enabled
equals the verdict computed with `short_circuit` disabled; only the
details/log completeness may differ. -/
theorem short_circuit_preserves_verdict (filters : List (String × PyFilter)) :
    (run_filters filters true).is_platform =
      (run_filters filters false).is_platform := by
  simp [run_filters_is_platform]

theorem andEnabled_append (l1 l2 : List (String × PyFilter)) :
    andEnabled (l1 ++ l2) = (andEnabled l1 && andEnabled l2) := by
  induction l1 with
  | nil => simp [andEnabled]
  | cons hd rest ih =>
    obtain ⟨name, f⟩ := hd
    simp [andEnabled, ih, Bool.and_assoc]

theorem run_filters_filter_results (fs : List (String × PyFilter)) (sc : Bool) :
    (run_filters fs sc).filter_results =
      (run_filtersAux sc fs
        { is_platform := true, filter_results := [],
          judgment_log := ["开始过滤分析"] }).filter_results := by
  simp [run_filters]

theorem mem_run_filtersAux_results (sc : Bool) :
    ∀ (fs : List (String × PyFilter)) (st : RunState) (m : String)
      (r : PyFilterResult),
      (m, r) ∈ (run_filtersAux sc fs st).filter_results →
      (m, r) ∈ st.filter_results ∨
        ∃ g : PyFilter, (m, g) ∈ fs ∧ g.enabled = true ∧ r = g.analyze := by
  intro fs
  induction fs with
  | nil => intro st m r h; exact Or.inl h
  | cons hd rest ih =>
    intro st m r h
    obtain ⟨name, f⟩ := hd
    by_cases hf : f.enabled
    · simp only [run_filtersAux, hf, if_true] at h
      by_cases hsc : (!(st.is_platform && f.analyze.passed.getD true) && sc) = true
      · rw [if_pos hsc] at h
        simp only [List.mem_append, List.mem_singleton] at h
        rcases h with h | h
        · exact Or.inl h
        · rcases Prod.mk.injEq _ _ _ _ ▸ h with ⟨hm, hr⟩
          exact Or.inr ⟨f, by simp [hm.symm], hf, hr⟩
      · rw [if_neg hsc] at h
        rcases ih _ m r h with h2 | ⟨g, hg, hge, hgr⟩
        · simp only [List.mem_append, List.mem_singleton] at h2
          rcases h2 with h2 | h2
          · exact Or.inl h2
          · rcases Prod.mk.injEq _ _ _ _ ▸ h2 with ⟨hm, hr⟩
            exact Or.inr ⟨f, by simp [hm.symm], hf, hr⟩
        · exact Or.inr ⟨g, by simp [hg], hge, hgr⟩
    · simp only [run_filtersAux, hf] at h
      rw [if_neg (by simp)] at h
      rcases ih _ m r h with h2 | ⟨g, hg, hge, hgr⟩
      · exact Or.inl h2
      · exact Or.inr ⟨g, by simp [hg], hge, hgr⟩

theorem nodupKeys_eq :
    ∀ {l : List (String × PyFilter)}, (l.map Prod.fst).Nodup →
      ∀ m g1 g2, (m, g1) ∈ l → (m, g2) ∈ l → g1 = g2 := by
  intro l
  induction l with
  | nil => intro _ m g1 g2 h1; cases h1
  | cons hd rest ih =>
    intro hnd m g1 g2 h1 h2
    obtain ⟨k, v⟩ := hd
    simp only [List.map_cons, List.nodup_cons] at hnd
    obtain ⟨hk, hrest⟩ := hnd
    simp only [List.mem_cons] at h1 h2
    rcases h1 with h1 | h1 <;> rcases h2 with h2 | h2
    · rcases Prod.mk.injEq _ _ _ _ ▸ h1 with ⟨_, hv1⟩
      rcases Prod.mk.injEq _ _ _ _ ▸ h2 with ⟨_, hv2⟩
      rw [hv1, hv2]
    · rcases Prod.mk.injEq _ _ _ _ ▸ h1 with ⟨hm, _⟩
      exact absurd (List.mem_map.mpr ⟨(m, g2), h2, by simp [hm]⟩) hk
    · rcases Prod.mk.injEq _ _ _ _ ▸ h2 with ⟨hm, _⟩
      exact absurd (List.mem_map.mpr ⟨(m, g1), h1, by simp [hm]⟩) hk
    · exact ih hrest m g1 g2 h1 h2

theorem run_filtersAux_disabled_irrelevant (sc : Bool) (n : String)
    (r1 r2 : PyFilterResult) :
    ∀ (pre post : List (String × PyFilter)) (st : RunState),
      run_filtersAux sc (pre ++ [(n, ⟨false, r1⟩)] ++ post) st =
        run_filtersAux sc (pre ++ [(n, ⟨false, r2⟩)] ++ post) st := by
  intro pre
  induction pre with
  | nil => intro post st; simp [run_filtersAux]
  | cons hd rest ih =>
    intro post st
    obtain ⟨name, g⟩ := hd
    by_cases hg : g.enabled
    · simp only [List.cons_append, run_filtersAux, hg, if_true]
      by_cases hsc : (!(st.is_platform && g.analyze.passed.getD true) && sc) = true
      · rw [if_pos hsc, if_pos hsc]
      · rw [if_neg hsc, if_neg hsc]
        exact ih _ _
    · simp only [List.cons_append, run_filtersAux, hg]
      rw [if_neg (by simp), if_neg (by simp)]
      exact ih _ _

/-- Claim C6: disabling one filter never turns a passing verdict into a
failing one; every other filter's recorded result is unchanged wherever it is
recorded in both runs; and the disabled filter is skipped — it is never
invoked (its would-be `analyze` result is irrelevant to the whole run and it
never appears in `filter_results`) and is treated as automatically passed. -/
theorem disable_filter_monotone
    (pre post : List (String × PyFilter)) (n : String) (f : PyFilter)
    (sc : Bool)
    (hnames : ((pre ++ [(n, f)] ++ post).map Prod.fst).Nodup) :
    ((run_filters (pre ++ [(n, { f with enabled := true })] ++ post) sc).is_platform = true →
      (run_filters (pre ++ [(n, { f with enabled := false })] ++ post) sc).is_platform = true)
    ∧ (∀ m r1 r2, m ≠ n →
        (m, r1) ∈ (run_filters (pre ++ [(n, { f with enabled := true })] ++ post) sc).filter_results →
        (m, r2) ∈ (run_filters (pre ++ [(n, { f with enabled := false })] ++ post) sc).filter_results →
        r1 = r2)
    ∧ (∀ r, (n, r) ∉ (run_filters (pre ++ [(n, { f with enabled := false })] ++ post) sc).filter_results)
    ∧ (∀ r2 : PyFilterResult,
        run_filters (pre ++ [(n, { f with enabled := false })] ++ post) sc =
          run_filters (pre ++ [(n, ⟨false, r2⟩)] ++ post) sc) := by
  have hkeysOn : ((pre ++ [(n, { f with enabled := true })] ++ post).map Prod.fst).Nodup := by
    simpa using hnames
  have hkeysOff : ((pre ++ [(n, { f with enabled := false })] ++ post).map Prod.fst).Nodup := by
    simpa using hnames
  refine ⟨?_, ?_, ?_, ?_⟩
  · intro h
    rw [run_filters_is_platform] at h ⊢
    rw [andEnabled_append, andEnabled_append] at h ⊢
    simp only [Bool.and_eq_true] at h
    obtain ⟨⟨hpre, _⟩, hpost⟩ := h
    simp [andEnabled, hpre, hpost]
  · intro m r1 r2 hm h1 h2
    rw [run_filters_filter_results] at h1 h2
    rcases mem_run_filtersAux_results sc _ _ m r1 h1 with h1' | ⟨g1, hg1, _, hr1⟩
    · cases h1'
    rcases mem_run_filtersAux_results sc _ _ m r2 h2 with h2' | ⟨g2, hg2, _, hr2⟩
    · cases h2'
    have hg1' : (m, g1) ∈ pre ++ post := by
      simp only [List.append_assoc, List.mem_append, List.mem_singleton] at hg1 ⊢
      rcases hg1 with h | h | h
      · exact Or.inl h
      · rcases Prod.mk.injEq _ _ _ _ ▸ h with ⟨hmn, _⟩
        exact absurd hmn hm
      · exact Or.inr h
    have hg2' : (m, g2) ∈ pre ++ post := by
      simp only [List.append_assoc, List.mem_append, List.mem_singleton] at hg2 ⊢
      rcases hg2 with h | h | h
      · exact Or.inl h
      · rcases Prod.mk.injEq _ _ _ _ ▸ h with ⟨hmn, _⟩
        exact absurd hmn hm
      · exact Or.inr h
    have hsub : List.Sublist ((pre ++ post).map Prod.fst)
        ((pre ++ [(n, f)] ++ post).map Prod.fst) := by
      refine List.Sublist.map Prod.fst ?_
      rw [List.append_assoc]
      exact List.Sublist.append_left (List.sublist_cons_self (n, f) post) pre
    have hnd : ((pre ++ post).map Prod.fst).Nodup := hnames.sublist hsub
    have := nodupKeys_eq hnd m g1 g2 hg1' hg2'
    rw [hr1, hr2, this]
  · intro r hr
    rw [run_filters_filter_results] at hr
    rcases mem_run_filtersAux_results sc _ _ n r hr with h' | ⟨g, hg, hge, _⟩
    · cases h'
    have hmem : (n, ({ f with enabled := false } : PyFilter)) ∈
        pre ++ [(n, { f with enabled := false })] ++ post := by
      simp
    have := nodupKeys_eq hkeysOff n g ({ f with enabled := false }) hg hmem
    rw [this] at hge
    simp at hge
  · intro r2
    have h1 := run_filtersAux_disabled_irrelevant sc n f.analyze r2 pre post
      { is_platform := true, filter_results := [], judgment_log := ["开始过滤分析"] }
    simp only [run_filters]
    rw [h1]

/-- Sample passing filter result for concrete witnesses. -/
def passResult : PyFilterResult := ⟨some true, none, none⟩

theorem disable_filter_monotone_witness :
    (run_filters [("price_filter", ⟨true, passResult⟩),
        ("volume_filter", ⟨false, passResult⟩)] true).is_platform = true := by
  have h := disable_filter_monotone [("price_filter", ⟨true, passResult⟩)] []
      "volume_filter" ⟨true, passResult⟩ true (by decide)
  exact h.1 (by decide)

/-! ### Front end: window-weight normalization (`updateWindowWeights`) -/

/-- Front end `updateWindowWeights` normalization step (App script): from the
raw slider weights (`windowWeights`, a numeric-keyed object modelled as an
insertion-ordered key/value list) and the configured windows
(`parsedWindows`), compute `config.window_weights`.  It totals the weights of
the configured windows; when the total is positive every such weight is
divided by the total; otherwise the weights object stays empty. -/
def updateWindowWeights (windowWeights : List (Nat × ℚ))
    (parsedWindows : List Nat) : List (Nat × ℚ) :=
  let relevant := windowWeights.filter (fun kv => parsedWindows.contains kv.1)
  let total : ℚ := (relevant.map Prod.snd).sum
  if 0 < total then relevant.map (fun kv => (kv.1, kv.2 / total)) else []

theorem list_sum_map_div (l : List ℚ) (c : ℚ) :
    (l.map (fun x => x / c)).sum = l.sum / c := by
  induction l with
  | nil => simp
  | cons hd tl ih => simp [ih, add_div]

/-- Claim C5 (amended): when the total weight over the configured windows is
positive, the normalized weights produced by `updateWindowWeights` sum to 1
exactly in rational arithmetic; when every configured window's weight is
zero, the function produces the empty weight map (no equal-weight fallback
occurs). -/
theorem updateWindowWeights_normalizes (windowWeights : List (Nat × ℚ))
    (parsedWindows : List Nat) :
    (0 < ((windowWeights.filter
          (fun kv => parsedWindows.contains kv.1)).map Prod.snd).sum →
      ((updateWindowWeights windowWeights parsedWindows).map Prod.snd).sum = 1)
    ∧ ((∀ kv ∈ windowWeights, parsedWindows.contains kv.1 → kv.2 = 0) →
      updateWindowWeights windowWeights parsedWindows = []) := by
  constructor
  · intro hpos
    simp only [updateWindowWeights]
    rw [if_pos hpos, List.map_map]
    have : (Prod.snd ∘ fun kv : Nat × ℚ =>
        (kv.1, kv.2 / ((windowWeights.filter
          (fun kv => parsedWindows.contains kv.1)).map Prod.snd).sum)) =
        (fun kv : Nat × ℚ => kv.2 / ((windowWeights.filter
          (fun kv => parsedWindows.contains kv.1)).map Prod.snd).sum) := rfl
    rw [this]
    have hcomp : ((windowWeights.filter
        (fun kv => parsedWindows.contains kv.1)).map
          (fun kv : Nat × ℚ => kv.2 / ((windowWeights.filter
            (fun kv => parsedWindows.contains kv.1)).map Prod.snd).sum)) =
        (((windowWeights.filter
          (fun kv => parsedWindows.contains kv.1)).map Prod.snd).map
            (fun x => x / ((windowWeights.filter
              (fun kv => parsedWindows.contains kv.1)).map Prod.snd).sum)) := by
      rw [List.map_map]
      rfl
    rw [hcomp, list_sum_map_div]
    exact div_self (ne_of_gt hpos)
  · intro hzero
    simp only [updateWindowWeights]
    rw [if_neg]
    intro hpos
    have hall : ∀ x ∈ ((windowWeights.filter
        (fun kv => parsedWindows.contains kv.1)).map Prod.snd), x = 0 := by
      intro x hx
      rcases List.mem_map.mp hx with ⟨kv, hkv, hxeq⟩
      rcases List.mem_filter.mp hkv with ⟨hmem, hcont⟩
      rw [← hxeq]
      exact hzero kv hmem hcont
    rw [List.sum_eq_zero hall] at hpos
    exact lt_irrefl 0 hpos

theorem updateWindowWeights_normalizes_witness :
    0 < (([((30 : Nat), (5 : ℚ)), (60, 10)].filter
        (fun kv => [30, 60].contains kv.1)).map Prod.snd).sum ∧
    ((updateWindowWeights [((30 : Nat), (5 : ℚ)), (60, 10)] [30, 60]).map
        Prod.snd).sum = 1 := by
  have hpos : 0 < (([((30 : Nat), (5 : ℚ)), (60, 10)].filter
      (fun kv => [30, 60].contains kv.1)).map Prod.snd).sum := by
    norm_num
  exact ⟨hpos, (updateWindowWeights_normalizes [(30, 5), (60, 10)] [30, 60]).1 hpos⟩

/-- Counterexample to claim C5 as stated: with an all-zero weight map over the
configured windows 30 and 60, `updateWindowWeights` yields the empty weight
map, not the equal-weight map assigning 1/2 to each configured window. -/
theorem updateWindowWeights_zero_no_equal_fallback :
    updateWindowWeights [((30 : Nat), (0 : ℚ)), (60, 0)] [30, 60] = [] ∧
      ([] : List (Nat × ℚ)) ≠ [(30, 1/2), (60, 1/2)] := by
  constructor
  · simp [updateWindowWeights]
  · intro h
    cases h

/-! ### Front end: windows parsing and scan-submission validation -/

/-- Split a character list at every occurrence of the separator, JavaScript
`String.prototype.split` with a one-character separator (an empty input
yields one empty piece, a trailing separator yields a trailing empty
piece). -/
def splitOnChar (sep : Char) : List Char → List (List Char)
  | [] => [[]]
  | c :: rest =>
    let r := splitOnChar sep rest
    if c = sep then [] :: r else (c :: r.headD []) :: r.tail

/-- JavaScript `s.split(sep)` for a one-character separator, over strings. -/
def jsSplit (sep : Char) (s : String) : List String :=
  (splitOnChar sep s.data).map (fun cs => ⟨cs⟩)

/-- JavaScript `s.trim()`: strip leading and trailing whitespace. -/
def jsTrim (s : String) : String :=
  ⟨((s.data.dropWhile Char.isWhitespace).reverse.dropWhile
      Char.isWhitespace).reverse⟩

/-- Leading decimal digits of a character list (the digit prefix consumed by
JavaScript `parseInt`). -/
def leadingDigits : List Char → List Char
  | [] => []
  | c :: rest => if c.isDigit then c :: leadingDigits rest else []

/-- Numeric value of a digit prefix; `none` when there is no leading digit. -/
def leadingNat (cs : List Char) : Option Nat :=
  match leadingDigits cs with
  | [] => none
  | ds => some (ds.foldl (fun a c => 10 * a + (c.toNat - 48)) 0)

/-- JavaScript `parseInt(s, 10)`: skip leading whitespace, accept an optional
sign, read the longest digit prefix (trailing junk is ignored); `NaN`
(modelled `none`) when no digit is read. -/
def jsParseInt (s : String) : Option Int :=
  match (jsTrim s).data with
  | '-' :: rest => (leadingNat rest).map (fun v => -(v : Int))
  | '+' :: rest => (leadingNat rest).map (fun v => (v : Int))
  | cs => (leadingNat cs).map (fun v => (v : Int))

/-- Front end `parsedWindows` (App script): split the windows input on commas,
`parseInt` each trimmed piece, and keep the values that are numbers and
positive. -/
def parsedWindows (windowsInput : String) : List Int :=
  ((jsSplit ',' windowsInput).map (fun w => jsParseInt (jsTrim w))).filterMap
    (fun w => match w with
      | some v => if 0 < v then some v else none
      | none => none)

/-- Scan configuration fields consulted by the front end's submission
validation (the remaining payload fields are forwarded unvalidated). -/
structure ScanConfigInput where
  windowsInput : String
  box_threshold : ℚ
  ma_diff_threshold : ℚ
  volatility_threshold : ℚ
deriving DecidableEq

/-- Outcome of `fetchPlatformStocks` up to the job-start request: either the
submission is rejected with an error message before any request is issued
(no job id ever exists), or a `/api/scan/start` request is issued carrying
the parsed windows. -/
inductive SubmitOutcome where
  | rejected (errorMsg : String)
  | requested (windows : List Int)
deriving DecidableEq

/-- Validation prefix of the front end's `fetchPlatformStocks`: reject when no
valid window remains after parsing, then reject when `box_threshold` is not
strictly between 0 and 1; otherwise POST the scan request.  No other
threshold is validated. -/
def fetchPlatformStocks (cfg : ScanConfigInput) : SubmitOutcome :=
  if (parsedWindows cfg.windowsInput).length = 0 then
    .rejected "请输入有效的窗口期天数 (正整数，用逗号分隔)"
  else if cfg.box_threshold ≤ 0 ∨ 1 ≤ cfg.box_threshold then
    .rejected "振幅阈值应在 0 和 1 之间 (例如 0.3 代表 30%)"
  else
    .requested (parsedWindows cfg.windowsInput)

/-- Claim C7 (amended): submission is rejected with a descriptive error before
any job-start request exactly when no positive window survives parsing or
when the amplitude (`box_threshold`) is not strictly between 0 and 1; every
window in an issued request is positive (non-positive entries are silently
filtered out, not rejected); thresholds other than `box_threshold` are not
validated before the request. -/
theorem fetchPlatformStocks_validation (cfg : ScanConfigInput) :
    (parsedWindows cfg.windowsInput = [] →
      fetchPlatformStocks cfg = .rejected "请输入有效的窗口期天数 (正整数，用逗号分隔)")
    ∧ (parsedWindows cfg.windowsInput ≠ [] →
        (cfg.box_threshold ≤ 0 ∨ 1 ≤ cfg.box_threshold) →
        fetchPlatformStocks cfg = .rejected "振幅阈值应在 0 和 1 之间 (例如 0.3 代表 30%)")
    ∧ (parsedWindows cfg.windowsInput ≠ [] →
        0 < cfg.box_threshold → cfg.box_threshold < 1 →
        fetchPlatformStocks cfg = .requested (parsedWindows cfg.windowsInput))
    ∧ (∀ w ∈ parsedWindows cfg.windowsInput, 0 < w) := by
  refine ⟨?_, ?_, ?_, ?_⟩
  · intro h
    rw [fetchPlatformStocks, if_pos (by rw [h]; rfl)]
  · intro hne hbad
    rw [fetchPlatformStocks,
      if_neg (by simpa [List.length_eq_zero] using hne), if_pos hbad]
  · intro hne h0 h1
    rw [fetchPlatformStocks,
      if_neg (by simpa [List.length_eq_zero] using hne), if_neg]
    push_neg
    exact ⟨h0, h1⟩
  · intro w hw
    rcases List.mem_filterMap.mp hw with ⟨o, _, ho⟩
    cases o with
    | none => cases ho
    | some v =>
      by_cases hv : 0 < v
      · simp only [if_pos hv, Option.some.injEq] at ho
        rw [← ho]; exact hv
      · simp only [if_neg hv] at ho
        cases ho

theorem fetchPlatformStocks_validation_witness :
    parsedWindows "abc" = [] ∧
      fetchPlatformStocks ⟨"abc", 3/10, 1/100, 1/100⟩ =
        .rejected "请输入有效的窗口期天数 (正整数，用逗号分隔)" := by
  have h : parsedWindows "abc" = [] := by decide
  exact ⟨h, (fetchPlatformStocks_validation ⟨"abc", 3/10, 1/100, 1/100⟩).1 h⟩

/-- Counterexample to claim C7 as stated: a configuration whose
`ma_diff_threshold` (a fractional threshold) is 3/2, far outside (0, 1), is
not rejected — `fetchPlatformStocks` issues the scan-start request anyway,
because only `box_threshold` is validated. -/
theorem fetchPlatformStocks_unvalidated_threshold :
    fetchPlatformStocks ⟨"30,60,90", 3/10, 3/2, 1/100⟩ =
      .requested [30, 60, 90] ∧
    ¬ ((0 : ℚ) < 3/2 ∧ (3 : ℚ)/2 < 1) := by
  have hw : parsedWindows "30,60,90" = [30, 60, 90] := by decide
  constructor
  · rw [fetchPlatformStocks]
    rw [if_neg (by rw [hw]; decide)]
    rw [if_neg (by push_neg; exact ⟨by norm_num, by norm_num⟩)]
    rw [hw]
  · norm_num

/-! ### KlineChart.vue: mark-line date resolution -/

/-- JavaScript `s.includes(c)` for a one-character needle. -/
def strContains (s : String) (c : Char) : Bool :=
  s.data.contains c

/-- JavaScript `s.split(' ')[0]`: the part of the string before the first
space (the whole string when it has no space). -/
def dayPart (s : String) : String :=
  (jsSplit ' ' s).headD ""

/-- JavaScript `s.padStart(2, '0')`. -/
def padStart2 (s : String) : String :=
  if s.data.length < 2 then ⟨List.replicate (2 - s.data.length) '0' ++ s.data⟩
  else s

/-- JavaScript `s.substring(0, n)` (for ASCII strings). -/
def strTake (s : String) (n : Nat) : String :=
  ⟨s.data.take n⟩

/-- Leading-match test on character lists. -/
def leadsChars : List Char → List Char → Bool
  | [], _ => true
  | _ :: _, [] => false
  | a :: as, b :: bs => (a = b) && leadsChars as bs

/-- JavaScript `s.startsWith(p)`. -/
def jsStartsWith (s p : String) : Bool :=
  leadsChars p.data s.data

/-- Numeric value of a list of decimal digits. -/
def digitsVal (cs : List Char) : Nat :=
  cs.foldl (fun a c => 10 * a + (c.toNat - 48)) 0

/-- Length of each month, with leap-year February. -/
def daysInMonth (y m : Nat) : Nat :=
  if m = 2 then (if (y % 4 = 0 ∧ y % 100 ≠ 0) ∨ y % 400 = 0 then 29 else 28)
  else if m = 4 ∨ m = 6 ∨ m = 9 ∨ m = 11 then 30 else 31

/-- Days from the Unix epoch to the civil date y-m-d (standard civil-calendar
day count). -/
def daysFromCivil (y m d : Nat) : Int :=
  let y2 : Int := if m ≤ 2 then (y : Int) - 1 else (y : Int)
  let era : Int := y2 / 400
  let yoe : Int := y2 - era * 400
  let mp : Int := ((m : Int) + 9) % 12
  let doy : Int := (153 * mp + 2) / 5 + (d : Int) - 1
  let doe : Int := yoe * 365 + yoe / 4 - yoe / 100 + doy
  era * 146097 + doe - 719468

/-- JavaScript `new Date(s).getTime()` restricted to ISO `YYYY-MM-DD` date
strings, the axis/date format this chart compares (milliseconds since the
epoch at UTC midnight); every other string — in particular every garbage
string this development instantiates — is an Invalid Date, modelled
`none` (`NaN`). -/
def jsDateTime (s : String) : Option Int :=
  match jsSplit '-' s with
  | [ys, ms, ds] =>
    if ys.data.length = 4 && decide (ms.data.length = 2)
        && decide (ds.data.length = 2)
        && ys.data.all Char.isDigit && ms.data.all Char.isDigit
        && ds.data.all Char.isDigit then
      if 1 ≤ digitsVal ms.data && decide (digitsVal ms.data ≤ 12)
          && decide (1 ≤ digitsVal ds.data)
          && decide (digitsVal ds.data ≤
              daysInMonth (digitsVal ys.data) (digitsVal ms.data)) then
        some (daysFromCivil (digitsVal ys.data) (digitsVal ms.data)
          (digitsVal ds.data) * 86400000)
      else none
    else none
  | _ => none

/-- First index of the list satisfying the predicate (the `for` loops of
`findDateIndex` return at the first hit). -/
def findFirstIdx (p : String → Bool) : List String → Option Nat
  | [] => none
  | d :: rest => if p d then some 0 else (findFirstIdx p rest).map (· + 1)

/-- Target-date normalization at the top of `findDateIndex`: keep only the
date part when the string contains a time-of-day part, and rewrite a
three-part `/`-separated date to `-`-separated with zero-padded month and
day. -/
def normalizeDateStr (targetDate : String) : String :=
  let dateStr := if strContains targetDate ' ' then dayPart targetDate
    else targetDate
  if strContains dateStr '/' then
    match jsSplit '/' dateStr with
    | [a, b, c] => a ++ "-" ++ padStart2 b ++ "-" ++ padStart2 c
    | _ => dateStr
  else dateStr

/-- Nearest-date loop of `findDateIndex` (step 4): walk the axis, parse each
day part, and keep the first index minimizing the absolute time difference
to the target timestamp. -/
def closestAux (targetTs : Int) : List String → Nat → Option (Nat × Nat) →
    Option (Nat × Nat)
  | [], _, best => best
  | d :: rest, i, best =>
    match jsDateTime (dayPart d) with
    | none => closestAux targetTs rest (i + 1) best
    | some ts =>
      match best with
      | none => closestAux targetTs rest (i + 1) (some (i, (targetTs - ts).natAbs))
      | some (bi, bdiff) =>
        if (targetTs - ts).natAbs < bdiff then
          closestAux targetTs rest (i + 1) (some (i, (targetTs - ts).natAbs))
        else closestAux targetTs rest (i + 1) (some (bi, bdiff))

/-- Index of the axis date closest in absolute time to the target timestamp
(`-1`, modelled `none`, when no axis date parses). -/
def closestIndex (targetTs : Int) (dateArray : List String) : Option Nat :=
  (closestAux targetTs dateArray 0 none).map Prod.fst

/-- `findDateIndex` of KlineChart.vue: normalize the target date, then try an
exact day-part match, a year-month prefix match, a year prefix match, and
finally the nearest parseable axis date; `-1` (modelled `none`) when the
target is falsy or every step fails. -/
def findDateIndex (targetDate : String) (dateArray : List String) :
    Option Nat :=
  if targetDate = "" then none
  else
    let dateStr := normalizeDateStr targetDate
    match findFirstIdx (fun cur => dayPart cur == dateStr) dateArray with
    | some i => some i
    | none =>
      match (if 7 ≤ dateStr.data.length then
          findFirstIdx (fun cur => jsStartsWith (dayPart cur)
            (strTake dateStr 7)) dateArray
        else none) with
      | some i => some i
      | none =>
        match (if 4 ≤ dateStr.data.length then
            findFirstIdx (fun cur => jsStartsWith (dayPart cur)
              (strTake dateStr 4)) dateArray
          else none) with
        | some i => some i
        | none =>
          match jsDateTime dateStr with
          | none => none
          | some ts => closestIndex ts dateArray

/-- A mark-line datum exchanged between the generators and the chart:
an optional `type` tag (`"horizontal"` for level marks), an optional level
`value`, an optional `date`, a label `text` and a `color`. -/
structure Mark where
  type : Option String
  value : Option ℚ
  date : Option String
  text : String
  color : Option String
deriving DecidableEq

/-- A mark line actually pushed onto the ECharts option by `setOptions`:
either a horizontal level line, or a vertical line at an x-axis index
(`estimated` when the index is the middle-of-axis fallback used after
`findDateIndex` returned `-1`). -/
inductive ChartLine where
  | horizontal (name : String) (yAxis : ℚ)
  | vertical (name : String) (xAxis : Nat) (estimated : Bool)
deriving DecidableEq

/-- Per-mark body of the `props.markLines.forEach` loop in `setOptions`:
a `horizontal` mark with a value becomes a horizontal line; a mark without a
date is dropped; otherwise the date is resolved with `findDateIndex`, and
when that fails the line is still emitted at the middle of the axis with an
"estimated position" label. -/
def processMark (dates : List String) (mark : Mark) : Option ChartLine :=
  if mark.type = some "horizontal" ∧ mark.value.isSome then
    mark.value.map (fun v => ChartLine.horizontal mark.text v)
  else
    match mark.date with
    | none => none
    | some d =>
      if d = "" then none
      else
        match findDateIndex d dates with
        | some i => some (ChartLine.vertical mark.text i false)
        | none => some (ChartLine.vertical mark.text (dates.length / 2) true)

/-- Mark-line portion of `setOptions`: process every incoming mark. -/
def setOptionsMarkLines (markLines : List Mark) (dates : List String) :
    List ChartLine :=
  markLines.filterMap (processMark dates)

theorem findFirstIdx_lt (p : String → Bool) :
    ∀ (l : List String) (i : Nat), findFirstIdx p l = some i → i < l.length := by
  intro l
  induction l with
  | nil => intro i h; cases h
  | cons hd tl ih =>
    intro i h
    simp only [findFirstIdx] at h
    by_cases hp : p hd
    · rw [if_pos hp] at h
      cases h
      simp
    · rw [if_neg hp] at h
      cases hfi : findFirstIdx p tl with
      | none => rw [hfi] at h; cases h
      | some j =>
        rw [hfi] at h
        simp only [Option.map_some', Option.some.injEq] at h
        subst h
        simpa [List.length_cons] using Nat.succ_lt_succ (ih j hfi)

theorem findFirstIdx_eq_some_of (p : String → Bool) :
    ∀ (l : List String) (i : Nat), i < l.length → p (l.getD i "") = true →
      (∀ j, j < i → p (l.getD j "") = false) → findFirstIdx p l = some i := by
  intro l
  induction l with
  | nil => intro i hi; exact absurd hi (Nat.not_lt_zero i)
  | cons hd tl ih =>
    intro i hi hpi hprev
    cases i with
    | zero =>
      simp only [List.getD_cons_zero] at hpi
      simp [findFirstIdx, hpi]
    | succ k =>
      have h0 : p hd = false := by
        simpa [List.getD_cons_zero] using hprev 0 (Nat.succ_pos k)
      have hrec : findFirstIdx p tl = some k := by
        refine ih k (by simpa using hi)
          (by simpa [List.getD_cons_succ] using hpi) ?_
        intro j hj
        simpa [List.getD_cons_succ] using hprev (j + 1) (Nat.succ_lt_succ hj)
      simp [findFirstIdx, h0, hrec]

theorem findFirstIdx_eq_none (p : String → Bool) :
    ∀ (l : List String), (∀ s ∈ l, p s = false) → findFirstIdx p l = none := by
  intro l
  induction l with
  | nil => intro _; rfl
  | cons hd tl ih =>
    intro h
    have h0 : p hd = false := h hd (List.mem_cons_self hd tl)
    have hrec := ih (fun s hs => h s (List.mem_cons_of_mem hd hs))
    simp [findFirstIdx, h0, hrec]

theorem closestAux_lt (targetTs : Int) :
    ∀ (l : List String) (i : Nat) (best : Option (Nat × Nat)),
      (∀ bi bd, best = some (bi, bd) → bi < i) →
      ∀ j d, closestAux targetTs l i best = some (j, d) → j < i + l.length := by
  intro l
  induction l with
  | nil =>
    intro i best hbest j d h
    simp only [closestAux] at h
    simpa using hbest j d h
  | cons hd tl ih =>
    intro i best hbest j d h
    simp only [closestAux] at h
    split at h
    · have := ih (i + 1) best
        (fun bi bd hb => Nat.lt_succ_of_lt (hbest bi bd hb)) j d h
      simp only [List.length_cons]
      omega
    · rename_i ts hts
      split at h
      · have := ih (i + 1) _
          (fun bi2 bd2 hb => by
            injection hb with hb2
            injection hb2 with h1 h2
            omega) j d h
        simp only [List.length_cons]
        omega
      · rename_i bi bdiff
        have hbi : bi < i := hbest bi bdiff rfl
        split at h
        · have := ih (i + 1) _
            (fun bi2 bd2 hb => by
              injection hb with hb2
              injection hb2 with h1 h2
              omega) j d h
          simp only [List.length_cons]
          omega
        · have := ih (i + 1) _
            (fun bi2 bd2 hb => by
              injection hb with hb2
              injection hb2 with h1 h2
              omega) j d h
          simp only [List.length_cons]
          omega

theorem closestIndex_lt (targetTs : Int) (l : List String) (j : Nat) :
    closestIndex targetTs l = some j → j < l.length := by
  intro h
  simp only [closestIndex] at h
  cases hc : closestAux targetTs l 0 none with
  | none => rw [hc] at h; cases h
  | some pr =>
    obtain ⟨j2, d⟩ := pr
    rw [hc] at h
    simp only [Option.map_some', Option.some.injEq] at h
    subst h
    have := closestAux_lt targetTs l 0 none (fun bi bd hb => by cases hb) j2 d hc
    simpa using this

theorem findDateIndex_lt (t : String) (l : List String) (i : Nat) :
    findDateIndex t l = some i → i < l.length := by
  intro h
  simp only [findDateIndex] at h
  by_cases ht : t = ""
  · rw [if_pos ht] at h; cases h
  · rw [if_neg ht] at h
    cases h1 : findFirstIdx (fun cur => dayPart cur == normalizeDateStr t) l with
    | some i1 =>
      rw [h1] at h
      cases h
      exact findFirstIdx_lt _ l i h1
    | none =>
      rw [h1] at h
      cases h2 : (if 7 ≤ (normalizeDateStr t).data.length then
          findFirstIdx (fun cur => jsStartsWith (dayPart cur)
            (strTake (normalizeDateStr t) 7)) l
        else none) with
      | some i2 =>
        rw [h2] at h
        cases h
        by_cases hc : 7 ≤ (normalizeDateStr t).data.length
        · rw [if_pos hc] at h2
          exact findFirstIdx_lt _ l i h2
        · rw [if_neg hc] at h2; cases h2
      | none =>
        rw [h2] at h
        cases h3 : (if 4 ≤ (normalizeDateStr t).data.length then
            findFirstIdx (fun cur => jsStartsWith (dayPart cur)
              (strTake (normalizeDateStr t) 4)) l
          else none) with
        | some i3 =>
          rw [h3] at h
          cases h
          by_cases hc : 4 ≤ (normalizeDateStr t).data.length
          · rw [if_pos hc] at h3
            exact findFirstIdx_lt _ l i h3
          · rw [if_neg hc] at h3; cases h3
        | none =>
          rw [h3] at h
          cases h4 : jsDateTime (normalizeDateStr t) with
          | none => rw [h4] at h; cases h
          | some ts =>
            rw [h4] at h
            exact closestIndex_lt ts l i h

/-- Claim C3 (amended): for every non-empty date axis and every mark carrying
a non-empty date string (however malformed), `setOptions` emits the mark at a
valid axis index — `findDateIndex`'s result when it finds one, otherwise the
middle of the axis; unresolvable dates are therefore never dropped.  An event
is dropped exactly when its date is absent or empty, which happens regardless
of the axis. -/
theorem processMark_valid_index (dates : List String) (mark : Mark) (d : String)
    (hne : dates ≠ []) (hdate : mark.date = some d) (hd : d ≠ "")
    (hnh : ¬(mark.type = some "horizontal" ∧ mark.value.isSome)) :
    ∃ i est, processMark dates mark = some (ChartLine.vertical mark.text i est) ∧
      i < dates.length := by
  obtain ⟨mt, mv, md, mtext, mcolor⟩ := mark
  simp only at hdate hnh
  subst hdate
  simp only [processMark, if_neg hnh]
  rw [if_neg hd]
  cases hf : findDateIndex d dates with
  | some i =>
    exact ⟨i, false, rfl, findDateIndex_lt d dates i hf⟩
  | none =>
    refine ⟨dates.length / 2, true, rfl, ?_⟩
    exact Nat.div_lt_self (List.length_pos.mpr hne) (by norm_num)

theorem processMark_valid_index_witness :
    ∃ i est,
      processMark ["2024-01-02"] ⟨none, none, some "2024-01-02", "高点", none⟩ =
        some (ChartLine.vertical "高点" i est) ∧ i < 1 := by
  have h := processMark_valid_index ["2024-01-02"]
    ⟨none, none, some "2024-01-02", "高点", none⟩ "2024-01-02"
    (by decide) rfl (by decide) (by decide)
  simpa using h

/-- Counterexample to claim C3 as stated: with the non-empty axis
["2024-01-02"], a mark whose date is the empty string (a garbage date string)
is dropped by `setOptions` even though the axis is non-empty, and
`findDateIndex` itself resolves the unparseable string "notadate" to no index
at all (`-1`), not to a valid one. -/
theorem processMark_dropped_on_nonempty_axis :
    processMark ["2024-01-02"] ⟨none, none, some "", "高点", none⟩ = none ∧
      (["2024-01-02"] : List String) ≠ [] ∧
      findDateIndex "notadate" ["2024-01-02"] = none := by
  refine ⟨by decide, by decide, by decide⟩

/-- Claim C4 (amended): `findDateIndex` matches through the fallback chain in
order — first exact day match (after stripping any time-of-day part and
rewriting a three-part `/`-date to zero-padded `-`-form), then first
year-month prefix match, then first year prefix match, then nearest parseable
axis date — and when the whole chain fails (in particular when the normalized
target cannot be parsed as a date), `setOptions` does not drop the event: it
emits the mark line at the middle of the axis flagged as an estimated
position. -/
theorem findDateIndex_fallback_chain (dates : List String) (t : String)
    (ht : t ≠ "") :
    (∀ i, i < dates.length →
      (dayPart (dates.getD i "") == normalizeDateStr t) = true →
      (∀ j, j < i → (dayPart (dates.getD j "") == normalizeDateStr t) = false) →
      findDateIndex t dates = some i)
    ∧ ((∀ s ∈ dates, (dayPart s == normalizeDateStr t) = false) →
      7 ≤ (normalizeDateStr t).data.length →
      ∀ i, i < dates.length →
        jsStartsWith (dayPart (dates.getD i ""))
          (strTake (normalizeDateStr t) 7) = true →
        (∀ j, j < i → jsStartsWith (dayPart (dates.getD j ""))
          (strTake (normalizeDateStr t) 7) = false) →
        findDateIndex t dates = some i)
    ∧ ((∀ s ∈ dates, (dayPart s == normalizeDateStr t) = false) →
      (∀ s ∈ dates, ¬(7 ≤ (normalizeDateStr t).data.length ∧
        jsStartsWith (dayPart s) (strTake (normalizeDateStr t) 7) = true)) →
      4 ≤ (normalizeDateStr t).data.length →
      ∀ i, i < dates.length →
        jsStartsWith (dayPart (dates.getD i ""))
          (strTake (normalizeDateStr t) 4) = true →
        (∀ j, j < i → jsStartsWith (dayPart (dates.getD j ""))
          (strTake (normalizeDateStr t) 4) = false) →
        findDateIndex t dates = some i)
    ∧ ((∀ s ∈ dates, (dayPart s == normalizeDateStr t) = false) →
      (∀ s ∈ dates, ¬(7 ≤ (normalizeDateStr t).data.length ∧
        jsStartsWith (dayPart s) (strTake (normalizeDateStr t) 7) = true)) →
      (∀ s ∈ dates, ¬(4 ≤ (normalizeDateStr t).data.length ∧
        jsStartsWith (dayPart s) (strTake (normalizeDateStr t) 4) = true)) →
      jsDateTime (normalizeDateStr t) = none →
      findDateIndex t dates = none ∧
      ∀ mark : Mark, mark.date = some t →
        ¬(mark.type = some "horizontal" ∧ mark.value.isSome) →
        processMark dates mark =
          some (ChartLine.vertical mark.text (dates.length / 2) true)) := by
  have hym : ∀ (k : Nat),
      (∀ s ∈ dates, ¬(k ≤ (normalizeDateStr t).data.length ∧
        jsStartsWith (dayPart s) (strTake (normalizeDateStr t) k) = true)) →
      (if k ≤ (normalizeDateStr t).data.length then
        findFirstIdx (fun cur => jsStartsWith (dayPart cur)
          (strTake (normalizeDateStr t) k)) dates
      else none) = none := by
    intro k hk
    by_cases hlen : k ≤ (normalizeDateStr t).data.length
    · rw [if_pos hlen]
      refine findFirstIdx_eq_none _ dates ?_
      intro s hs
      have := hk s hs
      cases hw : jsStartsWith (dayPart s) (strTake (normalizeDateStr t) k) with
      | false => rfl
      | true => exact absurd ⟨hlen, hw⟩ this
    · rw [if_neg hlen]
  refine ⟨?_, ?_, ?_, ?_⟩
  · intro i hi hpi hprev
    have hfi := findFirstIdx_eq_some_of
      (fun cur => dayPart cur == normalizeDateStr t) dates i hi hpi hprev
    simp only [findDateIndex]
    rw [if_neg ht, hfi]
  · intro hnone h7 i hi hpi hprev
    have h1 := findFirstIdx_eq_none
      (fun cur => dayPart cur == normalizeDateStr t) dates hnone
    have hfi := findFirstIdx_eq_some_of
      (fun cur => jsStartsWith (dayPart cur) (strTake (normalizeDateStr t) 7))
      dates i hi hpi hprev
    simp only [findDateIndex]
    rw [if_neg ht, h1, if_pos h7, hfi]
  · intro hnone hnoym h4 i hi hpi hprev
    have h1 := findFirstIdx_eq_none
      (fun cur => dayPart cur == normalizeDateStr t) dates hnone
    have h2 := hym 7 hnoym
    have hfi := findFirstIdx_eq_some_of
      (fun cur => jsStartsWith (dayPart cur) (strTake (normalizeDateStr t) 4))
      dates i hi hpi hprev
    simp only [findDateIndex]
    rw [if_neg ht, h1, h2, if_pos h4, hfi]
  · intro hnone hnoym hnoy hts
    have h1 := findFirstIdx_eq_none
      (fun cur => dayPart cur == normalizeDateStr t) dates hnone
    have h2 := hym 7 hnoym
    have h3 := hym 4 hnoy
    have hmain : findDateIndex t dates = none := by
      simp only [findDateIndex]
      rw [if_neg ht, h1, h2, h3, hts]
    refine ⟨hmain, ?_⟩
    intro mark hdate hnh
    obtain ⟨mt, mv, md, mtext, mcolor⟩ := mark
    simp only at hdate hnh
    subst hdate
    simp only [processMark, if_neg hnh]
    rw [if_neg ht, hmain]

theorem findDateIndex_fallback_chain_witness :
    findDateIndex "2024/1/3" ["2024-01-02 00:00:00", "2024-01-03"] = some 1 := by
  have h := (findDateIndex_fallback_chain
    ["2024-01-02 00:00:00", "2024-01-03"] "2024/1/3" (by decide)).1
  refine h 1 (by decide) (by decide) ?_
  intro j hj
  have hj0 : j = 0 := by omega
  subst hj0
  decide

/-- Counterexample to claim C4 as stated: the target "notadate" parses to no
valid date, yet the event is not dropped — `setOptions` emits the mark line
at the middle index 0 of the one-entry axis, flagged as an estimated
position. -/
theorem processMark_unparseable_not_dropped :
    processMark ["2024-01-02"] ⟨none, none, some "notadate", "高点", none⟩ =
      some (ChartLine.vertical "高点" 0 true) ∧
      jsDateTime (normalizeDateStr "notadate") = none := by
  refine ⟨by decide, by decide⟩

/-! ### Python design: `MarkLineGenerator.generate_mark_lines` -/

/-- Lookup in an insertion-ordered string-keyed dict (Python `d[k]` guarded by
`k in d`; dict keys are unique). -/
def lookupKey {α : Type} : List (String × α) → String → Option α
  | [], _ => none
  | (k2, v) :: rest, k => if k2 == k then some v else lookupKey rest k

/-- Python `str(x).split()[0]` for a string with a non-whitespace character:
the first whitespace-delimited chunk (used to strip a time-of-day part from a
date value). -/
def pySplitFirst (s : String) : String :=
  ⟨(s.data.dropWhile Char.isWhitespace).takeWhile (fun c => !c.isWhitespace)⟩

/-- Low-position branch of `generate_mark_lines`: when the filter is present,
passed and has details with a `high_date`, emit the red high-point mark. -/
def lowPositionMarks (filter_results : List (String × PyFilterResult)) :
    List Mark :=
  match lookupKey filter_results "low_position_filter" with
  | none => []
  | some result =>
    if result.passed.getD false && result.details.isSome then
      match lookupKey (result.details.getD []) "high_date" with
      | some hd => [⟨none, none, some (pySplitFirst hd), "高点", some "#ec0000"⟩]
      | none => []
    else []

/-- Rapid-decline branch of `generate_mark_lines`: decline-start and
decline-end (platform-start) marks; the branch never reads a `high_date`. -/
def rapidDeclineMarks (filter_results : List (String × PyFilterResult)) :
    List Mark :=
  match lookupKey filter_results "rapid_decline_filter" with
  | none => []
  | some result =>
    if result.passed.getD false && result.details.isSome then
      (match lookupKey (result.details.getD []) "rapid_decline_start_date" with
        | some sd => [⟨none, none, some (pySplitFirst sd), "开始下跌", some "#ec0000"⟩]
        | none => []) ++
      (match lookupKey (result.details.getD []) "rapid_decline_end_date" with
        | some ed => [⟨none, none, some (pySplitFirst ed), "平台期开始", some "#3b82f6"⟩]
        | none => [])
    else []

/-- Box branch of `generate_mark_lines`: horizontal support/resistance level
marks (no dates). -/
def boxMarks (filter_results : List (String × PyFilterResult)) : List Mark :=
  match lookupKey filter_results "box_filter" with
  | none => []
  | some result =>
    if result.passed.getD false && result.support_resistance_levels.isSome then
      (match (result.support_resistance_levels.getD ⟨none, none⟩).support with
        | some v => [⟨some "horizontal", some v, none, "支撑位", some "#10b981"⟩]
        | none => []) ++
      (match (result.support_resistance_levels.getD ⟨none, none⟩).resistance with
        | some v => [⟨some "horizontal", some v, none, "阻力位", some "#ec0000"⟩]
        | none => [])
    else []

/-- `MarkLineGenerator.generate_mark_lines` (design document): the low
position, rapid decline and box branches, appended in order. -/
def generate_mark_lines (filter_results : List (String × PyFilterResult)) :
    List Mark :=
  lowPositionMarks filter_results ++ rapidDeclineMarks filter_results ++
    boxMarks filter_results

/-- Claim C9: the design's mark-line generator emits date events from a
filter's details only when that filter's result has `passed = true`: whenever
`low_position_filter` (resp. `rapid_decline_filter`) is absent, lacks
details, or did not pass, its branch contributes no mark-line events. -/
theorem generate_mark_lines_passed_gate
    (frs : List (String × PyFilterResult)) :
    ((lookupKey frs "low_position_filter" = none ∨
        (∃ r, lookupKey frs "low_position_filter" = some r ∧
          (r.passed.getD false = false ∨ r.details = none))) →
      lowPositionMarks frs = [])
    ∧ ((lookupKey frs "rapid_decline_filter" = none ∨
        (∃ r, lookupKey frs "rapid_decline_filter" = some r ∧
          (r.passed.getD false = false ∨ r.details = none))) →
      rapidDeclineMarks frs = [])
    ∧ generate_mark_lines frs =
        lowPositionMarks frs ++ rapidDeclineMarks frs ++ boxMarks frs := by
  refine ⟨?_, ?_, rfl⟩
  · intro h
    rcases h with h | ⟨r, hr, hc⟩
    · simp [lowPositionMarks, h]
    · rcases hc with hc | hc
      · simp [lowPositionMarks, hr, hc]
      · simp [lowPositionMarks, hr, hc]
  · intro h
    rcases h with h | ⟨r, hr, hc⟩
    · simp [rapidDeclineMarks, h]
    · rcases hc with hc | hc
      · simp [rapidDeclineMarks, hr, hc]
      · simp [rapidDeclineMarks, hr, hc]

theorem generate_mark_lines_passed_gate_witness :
    lowPositionMarks [] = [] ∧ rapidDeclineMarks [] = [] := by
  have h := generate_mark_lines_passed_gate []
  exact ⟨h.1 (Or.inl rfl), h.2.1 (Or.inl rfl)⟩

/-- Claim C2 (amended): the design's generator emits exactly one mark-line
event dated `high_date` when both filters pass and report the same
`high_date` — not by deduplication, but because the rapid-decline branch
never reads `high_date`; this requires the rapid-decline start/end dates to
differ from it.  (The front end's `generateMarkLines` has no deduplication at
all; see the counterexample.) -/
theorem same_high_date_single_event
    (frs : List (String × PyFilterResult)) (lowRes rapidRes : PyFilterResult)
    (ldetails rdetails : List (String × String)) (hdl hdr d : String)
    (hlow : lookupKey frs "low_position_filter" = some lowRes)
    (hlp : lowRes.passed.getD false = true)
    (hld : lowRes.details = some ldetails)
    (hlh : lookupKey ldetails "high_date" = some hdl)
    (hd : pySplitFirst hdl = d)
    (hrap : lookupKey frs "rapid_decline_filter" = some rapidRes)
    (hrd : rapidRes.details = some rdetails)
    (hrh : lookupKey rdetails "high_date" = some hdr)
    (hsame : pySplitFirst hdr = d)
    (hstart : ∀ s, lookupKey rdetails "rapid_decline_start_date" = some s →
      pySplitFirst s ≠ d)
    (hend : ∀ s, lookupKey rdetails "rapid_decline_end_date" = some s →
      pySplitFirst s ≠ d) :
    ((generate_mark_lines frs).filter (fun m => m.date == some d)).length = 1 := by
  have hlowlist : lowPositionMarks frs =
      [⟨none, none, some d, "高点", some "#ec0000"⟩] := by
    simp [lowPositionMarks, hlow, hlp, hld, hlh, hd]
  have hrapmem : ∀ m ∈ rapidDeclineMarks frs, ¬(m.date == some d) = true := by
    intro m hm
    simp only [rapidDeclineMarks, hrap] at hm
    split at hm
    · rw [List.mem_append] at hm
      rcases hm with hm | hm
      · split at hm
        · rename_i sd hsd
          rw [List.mem_singleton] at hm
          subst hm
          have hne : pySplitFirst sd ≠ d := by
            apply hstart
            simpa [hrd] using hsd
          simp [hne]
        · cases hm
      · split at hm
        · rename_i ed hed
          rw [List.mem_singleton] at hm
          subst hm
          have hne : pySplitFirst ed ≠ d := by
            apply hend
            simpa [hrd] using hed
          simp [hne]
        · cases hm
    · cases hm
  have hrapfilter :
      (rapidDeclineMarks frs).filter (fun m => m.date == some d) = [] :=
    List.filter_eq_nil_iff.mpr hrapmem
  have hboxmem : ∀ m ∈ boxMarks frs, ¬(m.date == some d) = true := by
    intro m hm
    simp only [boxMarks] at hm
    split at hm
    · cases hm
    · split at hm
      · rw [List.mem_append] at hm
        rcases hm with hm | hm
        · split at hm
          · rw [List.mem_singleton] at hm
            subst hm
            simp
          · cases hm
        · split at hm
          · rw [List.mem_singleton] at hm
            subst hm
            simp
          · cases hm
      · cases hm
  have hboxfilter :
      (boxMarks frs).filter (fun m => m.date == some d) = [] :=
    List.filter_eq_nil_iff.mpr hboxmem
  rw [generate_mark_lines, List.filter_append, List.filter_append,
    hrapfilter, hboxfilter, hlowlist]
  simp [List.filter_cons]

/-- Low-position result used in the concrete C2 scenario. -/
def lowResW : PyFilterResult :=
  ⟨some true, some [("high_date", "2024-01-01 00:00:00")], none⟩

/-- Rapid-decline result reporting the same high date. -/
def rapidResW : PyFilterResult :=
  ⟨some true, some [("high_date", "2024-01-01")], none⟩

/-- Filter results in which both filters pass and report the same high
date. -/
def frsW : List (String × PyFilterResult) :=
  [("low_position_filter", lowResW), ("rapid_decline_filter", rapidResW)]

theorem same_high_date_single_event_witness :
    ((generate_mark_lines frsW).filter
      (fun m => m.date == some "2024-01-01")).length = 1 := by
  refine same_high_date_single_event frsW lowResW rapidResW
    [("high_date", "2024-01-01 00:00:00")] [("high_date", "2024-01-01")]
    "2024-01-01 00:00:00" "2024-01-01" "2024-01-01"
    (by decide) (by decide) (by decide) (by decide) (by decide)
    (by decide) (by decide) (by decide) (by decide) ?_ ?_
  · intro s hs
    rw [show lookupKey [("high_date", "2024-01-01")]
      "rapid_decline_start_date" = none by decide] at hs
    cases hs
  · intro s hs
    rw [show lookupKey [("high_date", "2024-01-01")]
      "rapid_decline_end_date" = none by decide] at hs
    cases hs

/-! ### Front end: `generateMarkLines` (App script) -/

/-- Analysis detail fields read by the front end's `generateMarkLines`
(absent keys are `none`). -/
structure JsDetails where
  high_date : Option String
  rapid_decline_start_date : Option String
  rapid_decline_end_date : Option String
deriving DecidableEq

/-- `position_analysis` object: only its `details` are read. -/
structure JsAnalysis where
  details : Option JsDetails
deriving DecidableEq

/-- `breakthrough_analysis` object. -/
structure JsBreakthrough where
  has_breakthrough_signal : Bool
  breakthrough_date : Option String
deriving DecidableEq

/-- Front end stock record: the fields `generateMarkLines` consults, `none`
when the field is absent from the payload. -/
structure JsStock where
  mark_lines : Option (List Mark)
  markLines : Option (List Mark)
  position_analysis : Option JsAnalysis
  decline_details : Option JsDetails
  breakthrough_analysis : Option JsBreakthrough
  decline_analysis : Option JsDetails
  position_details : Option JsDetails
deriving DecidableEq

/-- One `if (field) markLines.push({date: field, ...})` step: a date field is
truthy when present and non-empty. -/
def truthyDateMark (o : Option String) (text color : String) : List Mark :=
  match o with
  | some dt => if dt = "" then [] else [⟨none, none, some dt, text, some color⟩]
  | none => []

/-- Marks derived from the analysis-detail fields when the back end provided
no mark-line array, in the source's block order; note `decline_details` is
walked twice (once for start/end, once again for high/start/end). -/
def derivedMarkLines (stock : JsStock) : List Mark :=
  (match stock.position_analysis with
    | some pa =>
      match pa.details with
      | some details => truthyDateMark details.high_date "高点" "#ec0000"
      | none => []
    | none => []) ++
  (match stock.decline_details with
    | some details =>
      truthyDateMark details.rapid_decline_start_date "开始下跌" "#ec0000" ++
        truthyDateMark details.rapid_decline_end_date "平台期开始" "#3b82f6"
    | none => []) ++
  (match stock.breakthrough_analysis with
    | some ba =>
      if ba.has_breakthrough_signal then
        truthyDateMark ba.breakthrough_date "突破" "#10b981"
      else []
    | none => []) ++
  (match stock.decline_analysis with
    | some details =>
      truthyDateMark details.high_date "高点" "#ec0000" ++
        truthyDateMark details.rapid_decline_start_date "开始下跌" "#ec0000" ++
        truthyDateMark details.rapid_decline_end_date "平台期开始" "#3b82f6"
    | none => []) ++
  (match stock.position_details with
    | some details => truthyDateMark details.high_date "高点" "#ec0000"
    | none => []) ++
  (match stock.decline_details with
    | some details =>
      truthyDateMark details.high_date "高点" "#ec0000" ++
        truthyDateMark details.rapid_decline_start_date "开始下跌" "#ec0000" ++
        truthyDateMark details.rapid_decline_end_date "平台期开始" "#3b82f6"
    | none => [])

/-- Front end `generateMarkLines`: a non-empty back-end `mark_lines` array is
returned as is, else a non-empty `markLines` array, else the marks derived
from the analysis-detail fields. -/
def generateMarkLines (stock : JsStock) : List Mark :=
  if stock.mark_lines.getD [] ≠ [] then stock.mark_lines.getD []
  else if stock.markLines.getD [] ≠ [] then stock.markLines.getD []
  else derivedMarkLines stock

/-- Claim C10: a stock already carrying a non-empty `mark_lines` (or, failing
that, `markLines`) array has that array returned unchanged by
`generateMarkLines`, the analysis-detail fields contributing nothing;
derivation from the detail fields happens only when both arrays are absent or
empty. -/
theorem generateMarkLines_passthrough (stock : JsStock) (l : List Mark) :
    (stock.mark_lines = some l → l ≠ [] → generateMarkLines stock = l)
    ∧ (∀ l2, (stock.mark_lines = none ∨ stock.mark_lines = some []) →
        stock.markLines = some l2 → l2 ≠ [] → generateMarkLines stock = l2)
    ∧ ((stock.mark_lines = none ∨ stock.mark_lines = some []) →
        (stock.markLines = none ∨ stock.markLines = some []) →
        generateMarkLines stock = derivedMarkLines stock) := by
  refine ⟨?_, ?_, ?_⟩
  · intro h hne
    rw [generateMarkLines, if_pos (by rw [h]; simpa using hne)]
    rw [h]
    rfl
  · intro l2 h1 hml hne
    have hempty : stock.mark_lines.getD [] = [] := by
      rcases h1 with h1 | h1 <;> rw [h1] <;> rfl
    rw [generateMarkLines, if_neg (by rw [hempty]; simp),
      if_pos (by rw [hml]; simpa using hne)]
    rw [hml]
    rfl
  · intro h1 h2
    have hempty : stock.mark_lines.getD [] = [] := by
      rcases h1 with h1 | h1 <;> rw [h1] <;> rfl
    have hempty2 : stock.markLines.getD [] = [] := by
      rcases h2 with h2 | h2 <;> rw [h2] <;> rfl
    rw [generateMarkLines, if_neg (by rw [hempty]; simp),
      if_neg (by rw [hempty2]; simp)]

/-- Back-end-annotated stock with populated analysis fields, for the
pass-through witness. -/
def passThroughStock : JsStock :=
  ⟨some [⟨none, none, some "2024-01-01", "高点", some "#ec0000"⟩], none,
    some ⟨some ⟨some "2024-02-02", none, none⟩⟩,
    some ⟨some "2024-03-03", some "2024-03-04", none⟩, none, none, none⟩

theorem generateMarkLines_passthrough_witness :
    generateMarkLines passThroughStock =
      [⟨none, none, some "2024-01-01", "高点", some "#ec0000"⟩] :=
  (generateMarkLines_passthrough passThroughStock
    [⟨none, none, some "2024-01-01", "高点", some "#ec0000"⟩]).1
    rfl (by decide)

/-- Stock whose Historical-Position details (`position_analysis.details`) and
Rapid-Decline details (`decline_details`) both report the same
`high_date`. -/
def sameHighDateStock : JsStock :=
  ⟨none, none, some ⟨some ⟨some "2024-01-01", none, none⟩⟩,
    some ⟨some "2024-01-01", none, none⟩, none, none, none⟩

/-- Counterexample to claim C2 as stated: when the Historical Position and
Rapid Decline details both report high_date "2024-01-01", the front end's
`generateMarkLines` emits two mark-line events for that date (one per detail
block), not exactly one — there is no deduplication. -/
theorem generateMarkLines_no_dedup :
    ((generateMarkLines sameHighDateStock).filter
      (fun m => m.date == some "2024-01-01")).length = 2 := by
  decide

/-! ### Scan job state machine and status polling -/

/-- Scan job status values exchanged with the polling client. -/
inductive JobStatus where
  | pending
  | running
  | completed
  | failed
deriving DecidableEq

/-- Modelled from the spec: the ScanJob record (spec section 3) served by the
status endpoint — the orchestrator backend is not among the provided sources,
only its polling client is.  `result` is the ranked candidate list of a
completed job (candidates abstracted to their codes), `error` the diagnostic
of a failed one. -/
structure ScanJob where
  status : JobStatus
  progress : Nat
  message : String
  result : Option (List String)
  error : Option String
deriving DecidableEq

/-- Modelled from the spec: the ScanJob lifecycle (spec sections 3 and 4.5).
A pending job starts running; a running job makes progress monotonically
within [0, 100]; a running job completes with progress 100 and a result, or
fails with an error; terminal states have no transitions. -/
inductive JobStep : ScanJob → ScanJob → Prop where
  | start (p : Nat) (msg msg2 : String) (r : Option (List String))
      (e : Option String) :
      JobStep ⟨.pending, p, msg, r, e⟩ ⟨.running, p, msg2, r, e⟩
  | work (p p2 : Nat) (msg msg2 : String) (r : Option (List String))
      (e : Option String) (hmono : p ≤ p2) (hle : p2 ≤ 100) :
      JobStep ⟨.running, p, msg, r, e⟩ ⟨.running, p2, msg2, r, e⟩
  | complete (p : Nat) (msg msg2 : String) (r : Option (List String))
      (res : List String) (e : Option String) :
      JobStep ⟨.running, p, msg, r, e⟩ ⟨.completed, 100, msg2, some res, e⟩
  | fail (p : Nat) (msg msg2 : String) (r : Option (List String))
      (err : String) (e : Option String) :
      JobStep ⟨.running, p, msg, r, e⟩ ⟨.failed, p, msg2, r, some err⟩

/-- Reflexive-transitive reachability between job snapshots. -/
def JobReaches (j j2 : ScanJob) : Prop :=
  Relation.ReflTransGen JobStep j j2

/-- A freshly submitted job: `pending` at progress 0 with neither result nor
error. -/
def initialJob (msg : String) : ScanJob :=
  ⟨.pending, 0, msg, none, none⟩

/-- Client state touched by the `startPolling` interval handler. -/
structure ClientState where
  taskStatus : Option JobStatus
  taskProgress : Nat
  taskMessage : String
  loading : Bool
  polling : Bool
  platformStocks : List String
  taskError : Option String
  errorMsg : Option String
deriving DecidableEq

/-- One tick of the front end's `startPolling` interval handler: copy the
polled status/progress/message into the client state; on `completed` stop
polling and either take the result array or record the no-valid-result error;
on `failed` stop polling and record the error; otherwise keep polling. -/
def startPollingTick (taskData : ScanJob) (c : ClientState) : ClientState :=
  let c1 := { c with
    taskStatus := some taskData.status
    taskProgress := taskData.progress
    taskMessage := taskData.message }
  match taskData.status with
  | .completed =>
    match taskData.result with
    | some res =>
      { c1 with polling := false, loading := false, platformStocks := res }
    | none =>
      { c1 with
        polling := false
        loading := false
        errorMsg := some "任务完成但未返回有效数据。" }
  | .failed =>
    { c1 with polling := false, loading := false, taskError := taskData.error }
  | _ => c1

theorem jobStep_progress_le (j j2 : ScanJob) (h : JobStep j j2)
    (hj : j.progress ≤ 100) :
    j.progress ≤ j2.progress ∧ j2.progress ≤ 100 := by
  cases h with
  | start p msg msg2 r e => exact ⟨Nat.le_refl p, hj⟩
  | work p p2 msg msg2 r e hmono hle => exact ⟨hmono, hle⟩
  | complete p msg msg2 r res e => exact ⟨hj, Nat.le_refl 100⟩
  | fail p msg msg2 r err e => exact ⟨Nat.le_refl p, hj⟩

theorem jobReaches_progress (j j2 : ScanJob) (h : JobReaches j j2)
    (hj : j.progress ≤ 100) :
    j.progress ≤ j2.progress ∧ j2.progress ≤ 100 := by
  induction h with
  | refl => exact ⟨Nat.le_refl _, hj⟩
  | tail hsteps hstep ih =>
    obtain ⟨h1, h2⟩ := ih
    obtain ⟨h3, h4⟩ := jobStep_progress_le _ _ hstep h2
    exact ⟨Nat.le_trans h1 h3, h4⟩

theorem jobStep_not_terminal (j j2 : ScanJob) (h : JobStep j j2) :
    j.status ≠ .completed ∧ j.status ≠ .failed := by
  cases h <;> constructor <;> intro hc <;> cases hc

/-- Claim C8: (spec-modelled) a scan job steps only along
pending→running→completed and pending→running→failed; along any observed
poll sequence from submission the progress is non-decreasing and stays in
[0, 100]; once a terminal status is reached the snapshot — in particular
`result` and `error` — never changes; and the polling client stops its
interval at the first terminal status it observes. -/
theorem scanJob_state_machine (j j2 : ScanJob) (msg : String)
    (c : ClientState) :
    (JobStep j j2 →
      ((j.status = .pending ∧ j2.status = .running) ∨
        (j.status = .running ∧ (j2.status = .running ∨
          j2.status = .completed ∨ j2.status = .failed))))
    ∧ (JobReaches (initialJob msg) j → JobReaches j j2 →
        j.progress ≤ j2.progress ∧ j2.progress ≤ 100)
    ∧ (JobReaches j j2 → (j.status = .completed ∨ j.status = .failed) →
        j2 = j)
    ∧ ((j.status = .completed ∨ j.status = .failed) →
        (startPollingTick j c).polling = false)
    ∧ (j.status = .pending ∨ j.status = .running →
        (startPollingTick j c).polling = c.polling) := by
  refine ⟨?_, ?_, ?_, ?_, ?_⟩
  · intro h
    cases h with
    | start p msg msg2 r e => exact Or.inl ⟨rfl, rfl⟩
    | work p p2 msg msg2 r e hmono hle => exact Or.inr ⟨rfl, Or.inl rfl⟩
    | complete p msg msg2 r res e => exact Or.inr ⟨rfl, Or.inr (Or.inl rfl)⟩
    | fail p msg msg2 r err e => exact Or.inr ⟨rfl, Or.inr (Or.inr rfl)⟩
  · intro hinit hreach
    have h0 : (initialJob msg).progress ≤ 100 := by
      simp [initialJob]
    have := jobReaches_progress _ _ hinit h0
    exact jobReaches_progress _ _ hreach this.2
  · intro hreach hterm
    rcases Relation.ReflTransGen.cases_head hreach with heq | ⟨mid, hstep, _⟩
    · exact heq.symm
    · obtain ⟨h1, h2⟩ := jobStep_not_terminal _ _ hstep
      rcases hterm with hterm | hterm
      · exact absurd hterm h1
      · exact absurd hterm h2
  · intro hterm
    obtain ⟨s, p, m, r, e⟩ := j
    rcases hterm with hterm | hterm <;> simp only at hterm <;> subst hterm
    · simp only [startPollingTick]
      cases r <;> rfl
    · rfl
  · intro hlive
    obtain ⟨s, p, m, r, e⟩ := j
    rcases hlive with hlive | hlive <;> simp only at hlive <;> subst hlive <;> rfl

theorem scanJob_state_machine_witness :
    JobReaches (initialJob "准备开始扫描...")
      ⟨.completed, 100, "done", some ["600000"], none⟩ ∧
    (0 : Nat) ≤ 100 ∧
    (startPollingTick ⟨.completed, 100, "done", some ["600000"], none⟩
      ⟨none, 0, "", true, true, [], none, none⟩).polling = false := by
  have hpath : JobReaches (initialJob "准备开始扫描...")
      ⟨.completed, 100, "done", some ["600000"], none⟩ := by
    refine Relation.ReflTransGen.head (JobStep.start 0 _ "running" none none) ?_
    exact Relation.ReflTransGen.single
      (JobStep.complete 0 "running" "done" none ["600000"] none)
  refine ⟨hpath, ?_, ?_⟩
  · have h := (scanJob_state_machine (initialJob "准备开始扫描...")
      ⟨.completed, 100, "done", some ["600000"], none⟩ "准备开始扫描..."
      ⟨none, 0, "", true, true, [], none, none⟩).2.1
      Relation.ReflTransGen.refl hpath
    exact Nat.le_of_lt (Nat.lt_of_lt_of_le (by norm_num) h.2)
  · exact (scanJob_state_machine
      ⟨.completed, 100, "done", some ["600000"], none⟩
      ⟨.completed, 100, "done", some ["600000"], none⟩ "准备开始扫描..."
      ⟨none, 0, "", true, true, [], none, none⟩).2.2.2.1 (Or.inl rfl)

end StockPlatform
